import Mathlib

/-!
Shallow embedding of the option-table validator, argument scanner and usage
printer (`GetOpts` / `parseOptionTable` / `PrintOpts`) of the getopts module
(package utils) of lars-t-hansen/util.

Modelling conventions:

* Go strings are modelled as lists of characters (`GoStr`).  The scanner
  indexes tokens by byte; per the spec (section 9) short-option names are
  assumed single-byte (ASCII), so list indexing coincides with the source's
  byte indexing.
* A Go handler closure `func(value string) error` that mutates captured state
  is modelled as a state-passing function `σ → GoStr → Except ε σ`; `GetOpts`
  threads the state through the handler invocations in dispatch order.
* The source's `handled` map is keyed by descriptor pointer (`*Option`); it is
  modelled by the descriptor's index in the caller's list.  The entry `none`
  stands for the descriptor synthesized by `parseOptionTable` when the caller
  supplies no default handler.
* Table-validation panics are modelled by `parseOptionTable` returning `none`.
  (Go's nil-handler panic has no counterpart: Lean functions are total, so
  every modelled descriptor has a handler.)
* Each `fmt.Errorf` site of the scanner is one constructor of `ParseErr`.
  The single wrapping site (`Rejected option \"--%s\": %w`) is the constructor
  `rejected`, carrying the option name together with the underlying handler
  error; a handler error returned with a bare `return nil, err` is injected
  unchanged by the constructor `fromHandler`; the error produced by the
  synthesized default handler is `additionalArgsNotAllowed`.
-/

namespace GoUtils

/-- Go strings, as lists of (single-byte) characters. -/
abbrev GoStr := List Char

/-- Character list of a Lean string literal, for readable concrete tokens. -/
def strL (s : String) : GoStr := s.toList

/-- The zero rune: the source uses `Short == 0` for "no short name". -/
def nulChar : Char := Char.ofNat 0

/-- The backtick character (used by `PrintOpts` for the value label). -/
def btick : Char := Char.ofNat 96

/-- One row of the caller-supplied option table (source type `Option`,
renamed `Opt` as `Option` is taken in Lean).  The handler is state-passing:
`σ` is the state the Go closures mutate, `ε` the handlers' error type. -/
structure Opt (σ ε : Type) where
  Short : Char
  Long : GoStr
  Help : GoStr
  Value : Bool
  Repeatable : Bool
  Handler : σ → GoStr → Except ε σ

/-- Placeholder descriptor for out-of-range index lookups (never reached for
indices produced by `parseOptionTable`). -/
def dummyOpt (σ ε : Type) : Opt σ ε :=
  ⟨nulChar, [], [], false, false, fun s _ => Except.ok s⟩

/-- Descriptor at index `ix` of the caller's table. -/
def getOpt {σ ε : Type} (options : List (Opt σ ε)) (ix : Nat) : Opt σ ε :=
  options.getD ix (dummyOpt σ ε)

/-- Lookup in the short index (the source's `short map[rune]*Option`,
as an association list keyed by character, valued by descriptor index). -/
def lookupShort : List (Char × Nat) → Char → Option Nat
  | [], _ => none
  | (c, ix) :: rest, d => if c = d then some ix else lookupShort rest d

/-- Lookup in the long index (the source's `long map[string]*Option`). -/
def lookupLong : List (GoStr × Nat) → GoStr → Option Nat
  | [], _ => none
  | (n, ix) :: rest, m => if n = m then some ix else lookupLong rest m

/-- The indexed table built by `parseOptionTable`: short index, long index,
and the default descriptor (`none` when the synthesized always-failing
default of the source is in effect). -/
structure Table where
  short : List (Char × Nat)
  long : List (GoStr × Nat)
  dflt : Option Nat
  deriving DecidableEq

/-- Default-handler registration step of the table loop (panic = `none`):
a descriptor with neither short nor long name is the default handler, and at
most one such descriptor is allowed. -/
def addDefault {σ ε : Type} (opt : Opt σ ε) (ix : Nat) (dflt : Option Nat) :
    Option (Option Nat) :=
  if opt.Short = nulChar ∧ opt.Long = [] then
    match dflt with
    | some _ => none
    | none => some (some ix)
  else some dflt

/-- Short-name registration step of the table loop (panic = `none`):
duplicate short names are rejected, and the lone-dash descriptor must have no
long name and must not take a value. -/
def addShort {σ ε : Type} (opt : Opt σ ε) (ix : Nat) (short : List (Char × Nat)) :
    Option (List (Char × Nat)) :=
  if opt.Short ≠ nulChar then
    match lookupShort short opt.Short with
    | some _ => none
    | none =>
      if opt.Short = '-' ∧ (opt.Long ≠ [] ∨ opt.Value = true) then none
      else some (short ++ [(opt.Short, ix)])
  else some short

/-- Long-name registration step of the table loop (panic = `none`):
duplicate long names are rejected. -/
def addLong {σ ε : Type} (opt : Opt σ ε) (ix : Nat) (long : List (GoStr × Nat)) :
    Option (List (GoStr × Nat)) :=
  if opt.Long ≠ [] then
    match lookupLong long opt.Long with
    | some _ => none
    | none => some (long ++ [(opt.Long, ix)])
  else some long

/-- The loop of `parseOptionTable`, over the descriptors with their indices. -/
def buildTable {σ ε : Type} :
    List (Opt σ ε) → Nat → List (Char × Nat) → List (GoStr × Nat) → Option Nat →
      Option Table
  | [], _, short, long, dflt => some (Table.mk short long dflt)
  | opt :: rest, ix, short, long, dflt =>
    match addDefault opt ix dflt with
    | none => none
    | some dflt' =>
      match addShort opt ix short with
      | none => none
      | some short' =>
        match addLong opt ix long with
        | none => none
        | some long' => buildTable rest (ix + 1) short' long' dflt'

/-- Source `parseOptionTable`: validates the descriptor list and builds the
lookup structures; a validation panic is modelled as `none`.  When no default
descriptor is present, `dflt = none` represents the synthesized descriptor
whose handler always fails with "Additional arguments not allowed". -/
def parseOptionTable {σ ε : Type} (options : List (Opt σ ε)) : Option Table :=
  buildTable options 0 [] [] none

/-- The scanner's errors: one constructor per `fmt.Errorf` site of `GetOpts`,
plus `fromHandler` for a handler error returned unwrapped (`return nil, err`)
and `additionalArgsNotAllowed` for the synthesized default handler's error. -/
inductive ParseErr (ε : Type) where
  | unknownLong : GoStr → ParseErr ε
  | repeatedLong : GoStr → ParseErr ε
  | unexpectedValue : GoStr → ParseErr ε
  | missingValueLong : GoStr → ParseErr ε
  | rejected : GoStr → ε → ParseErr ε
  | illegalOption : ParseErr ε
  | repeatedShort : Char → ParseErr ε
  | competingValues : ParseErr ε
  | missingValueShort : Char → ParseErr ε
  | repeatedDefault : ParseErr ε
  | additionalArgsNotAllowed : ParseErr ε
  | fromHandler : ε → ParseErr ε
  deriving DecidableEq

/-- Does the error carry an option display name together with a wrapped
handler error (the form produced by the source's `Rejected option` wrap)? -/
def carriesName {ε : Type} : ParseErr ε → Bool
  | ParseErr.rejected _ _ => true
  | _ => false

/-- Source `strings.Cut(arg, "=")`: split at the first `=`; the `Bool` is
Go's `matched` (whether an `=` was found). -/
def cutEq : GoStr → GoStr × GoStr × Bool
  | [] => ([], [], false)
  | c :: cs =>
    if c = '=' then ([], cs, true)
    else
      let r := cutEq cs
      (c :: r.1, r.2.1, r.2.2)

/-- The inner loop over a short-option bundle (source lines scanning
`arg[i:]`): consumes recognized option letters one at a time, dispatching
no-value options immediately and remembering the single value-taking option;
on the first character that fails lookup it errors (`Illegal option`) if that
character is at index `< 2`, otherwise it stops, and the unconsumed remainder
of the token is the attached value.  Loop exit (normal or via the boundary
`break`) transfers control to the source's post-loop value-resolution code,
passed here as the continuation `k` (applied to the updated handled set,
state, pending value-taking descriptor, and remainder of the token). -/
def scanBundle {σ ε α : Type} (options : List (Opt σ ε)) (short : List (Char × Nat))
    (k : List (Option Nat) → σ → Option Nat → GoStr → Except (ParseErr ε) α)
    (handled : List (Option Nat)) (s : σ) (needs : Option Nat) (i : Nat) :
    GoStr → Except (ParseErr ε) α
  | [] => k handled s needs []
  | c :: cs =>
    match lookupShort short c with
    | none =>
      if i < 2 then Except.error ParseErr.illegalOption
      else k handled s needs (c :: cs)
    | some ix =>
      if (getOpt options ix).Repeatable = false ∧ some ix ∈ handled then
        Except.error (ParseErr.repeatedShort c)
      else
        if (getOpt options ix).Value then
          match needs with
          | some _ => Except.error ParseErr.competingValues
          | none => scanBundle options short k (some ix :: handled) s (some ix) (i + 1) cs
        else
          match (getOpt options ix).Handler s [] with
          | Except.error e => Except.error (ParseErr.fromHandler e)
          | Except.ok s' =>
            scanBundle options short k (some ix :: handled) s' needs (i + 1) cs

/-- The argument loop of `GetOpts`: processes the tokens left to right,
dispatching handlers, and returns the leftover arguments (source `GetOpts`
body after `parseOptionTable`).  `handled` is the set of already-dispatched
descriptors of the source's `handled` map. -/
def scan {σ ε : Type} (options : List (Opt σ ε)) (t : Table)
    (handled : List (Option Nat)) (s : σ) :
    List GoStr → Except (ParseErr ε) (List GoStr × σ)
  | [] => Except.ok ([], s)
  | arg :: rest =>
    match arg with
    | [] =>
      -- empty token: not dash-led, goes to the default handler
      match t.dflt with
      | some di =>
        if (getOpt options di).Repeatable = false ∧ some di ∈ handled then
          Except.error ParseErr.repeatedDefault
        else
          match (getOpt options di).Handler s [] with
          | Except.error e => Except.error (ParseErr.fromHandler e)
          | Except.ok s' => scan options t (some di :: handled) s' rest
      | none =>
        if (none : Option Nat) ∈ handled then Except.error ParseErr.repeatedDefault
        else Except.error ParseErr.additionalArgsNotAllowed
    | a :: as =>
      if a = '-' then
        match as with
        | [] =>
          -- the token is exactly "-": scanned as a bundle starting at index 0
          scanBundle options t.short
            (fun handled' s' needs remainder =>
              match needs with
              | none => scan options t handled' s' rest
              | some ix =>
                match remainder with
                | rc :: rcs =>
                  match (getOpt options ix).Handler s' (rc :: rcs) with
                  | Except.error e => Except.error (ParseErr.fromHandler e)
                  | Except.ok s'' => scan options t handled' s'' rest
                | [] =>
                  match rest with
                  | [] => Except.error (ParseErr.missingValueShort (getOpt options ix).Short)
                  | v :: rest' =>
                    match (getOpt options ix).Handler s' v with
                    | Except.error e => Except.error (ParseErr.fromHandler e)
                    | Except.ok s'' => scan options t handled' s'' rest')
            handled s none 0 ['-']
        | b :: bs =>
          if b = '-' then
            match bs with
            | [] =>
              -- the terminator "--": the remaining tokens are the leftover
              Except.ok (rest, s)
            | c :: cs =>
              -- long option: strip "--", split at the first "="
              let r := cutEq (c :: cs)
              match lookupLong t.long r.1 with
              | none => Except.error (ParseErr.unknownLong r.1)
              | some ix =>
                if (getOpt options ix).Repeatable = false ∧ some ix ∈ handled then
                  Except.error (ParseErr.repeatedLong r.1)
                else
                  if (getOpt options ix).Value = false ∧ r.2.2 = true then
                    Except.error (ParseErr.unexpectedValue r.1)
                  else
                    if (getOpt options ix).Value = true ∧ r.2.2 = false then
                      match rest with
                      | [] => Except.error (ParseErr.missingValueLong r.1)
                      | v :: rest' =>
                        match (getOpt options ix).Handler s v with
                        | Except.error e => Except.error (ParseErr.rejected r.1 e)
                        | Except.ok s' =>
                          scan options t (some ix :: handled) s' rest'
                    else
                      match (getOpt options ix).Handler s r.2.1 with
                      | Except.error e => Except.error (ParseErr.rejected r.1 e)
                      | Except.ok s' => scan options t (some ix :: handled) s' rest
          else
            -- short-option bundle: scanned from index 1 (after the dash)
            scanBundle options t.short
              (fun handled' s' needs remainder =>
                match needs with
                | none => scan options t handled' s' rest
                | some ix =>
                  match remainder with
                  | rc :: rcs =>
                    match (getOpt options ix).Handler s' (rc :: rcs) with
                    | Except.error e => Except.error (ParseErr.fromHandler e)
                    | Except.ok s'' => scan options t handled' s'' rest
                  | [] =>
                    match rest with
                    | [] => Except.error (ParseErr.missingValueShort (getOpt options ix).Short)
                    | v :: rest' =>
                      match (getOpt options ix).Handler s' v with
                      | Except.error e => Except.error (ParseErr.fromHandler e)
                      | Except.ok s'' => scan options t handled' s'' rest')
              handled s none 1 (b :: bs)
      else
        -- non-option argument: dispatched to the default handler
        match t.dflt with
        | some di =>
          if (getOpt options di).Repeatable = false ∧ some di ∈ handled then
            Except.error ParseErr.repeatedDefault
          else
            match (getOpt options di).Handler s (a :: as) with
            | Except.error e => Except.error (ParseErr.fromHandler e)
            | Except.ok s' => scan options t (some di :: handled) s' rest
        | none =>
          if (none : Option Nat) ∈ handled then Except.error ParseErr.repeatedDefault
          else Except.error ParseErr.additionalArgsNotAllowed

/-- The default-handler dispatch step of the scanner (the `else` branch of
`GetOpts` for a non-option token `arg`), continuing with `scan` on `rest`;
`t.dflt = none` is the synthesized default whose handler always fails. -/
def defaultStep {σ ε : Type} (options : List (Opt σ ε)) (t : Table)
    (handled : List (Option Nat)) (s : σ) (arg : GoStr) (rest : List GoStr) :
    Except (ParseErr ε) (List GoStr × σ) :=
  match t.dflt with
  | some di =>
    if (getOpt options di).Repeatable = false ∧ some di ∈ handled then
      Except.error ParseErr.repeatedDefault
    else
      match (getOpt options di).Handler s arg with
      | Except.error e => Except.error (ParseErr.fromHandler e)
      | Except.ok s' => scan options t (some di :: handled) s' rest
  | none =>
    if (none : Option Nat) ∈ handled then Except.error ParseErr.repeatedDefault
    else Except.error ParseErr.additionalArgsNotAllowed

/-- The long-option dispatch step of the scanner for a token `--body`,
continuing with `scan` on the remaining arguments. -/
def longStep {σ ε : Type} (options : List (Opt σ ε)) (t : Table)
    (handled : List (Option Nat)) (s : σ) (body : GoStr) (rest : List GoStr) :
    Except (ParseErr ε) (List GoStr × σ) :=
  let r := cutEq body
  match lookupLong t.long r.1 with
  | none => Except.error (ParseErr.unknownLong r.1)
  | some ix =>
    if (getOpt options ix).Repeatable = false ∧ some ix ∈ handled then
      Except.error (ParseErr.repeatedLong r.1)
    else
      if (getOpt options ix).Value = false ∧ r.2.2 = true then
        Except.error (ParseErr.unexpectedValue r.1)
      else
        if (getOpt options ix).Value = true ∧ r.2.2 = false then
          match rest with
          | [] => Except.error (ParseErr.missingValueLong r.1)
          | v :: rest' =>
            match (getOpt options ix).Handler s v with
            | Except.error e => Except.error (ParseErr.rejected r.1 e)
            | Except.ok s' => scan options t (some ix :: handled) s' rest'
        else
          match (getOpt options ix).Handler s r.2.1 with
          | Except.error e => Except.error (ParseErr.rejected r.1 e)
          | Except.ok s' => scan options t (some ix :: handled) s' rest

/-- The short-bundle dispatch step of the scanner (bundle loop followed by the
post-loop value resolution), continuing with `scan` on the remaining
arguments. -/
def shortStep {σ ε : Type} (options : List (Opt σ ε)) (t : Table)
    (handled : List (Option Nat)) (s : σ) (i : Nat) (chars : GoStr)
    (rest : List GoStr) : Except (ParseErr ε) (List GoStr × σ) :=
  scanBundle options t.short
    (fun handled' s' needs remainder =>
      match needs with
      | none => scan options t handled' s' rest
      | some ix =>
        match remainder with
        | rc :: rcs =>
          match (getOpt options ix).Handler s' (rc :: rcs) with
          | Except.error e => Except.error (ParseErr.fromHandler e)
          | Except.ok s'' => scan options t handled' s'' rest
        | [] =>
          match rest with
          | [] => Except.error (ParseErr.missingValueShort (getOpt options ix).Short)
          | v :: rest' =>
            match (getOpt options ix).Handler s' v with
            | Except.error e => Except.error (ParseErr.fromHandler e)
            | Except.ok s'' => scan options t handled' s'' rest')
    handled s none i chars

/-- Source `GetOpts`: validate and index the table (a panic is `none`), then
scan the arguments with an empty handled set. -/
def GetOpts {σ ε : Type} (options : List (Opt σ ε)) (args : List GoStr) (s : σ) :
    Option (Except (ParseErr ε) (List GoStr × σ)) :=
  match parseOptionTable options with
  | none => none
  | some t => some (scan options t [] s args)

/-- Source `strings.Index(s, needle)` for a one-character needle: index of the
first occurrence, `none` for Go's `-1`. -/
def strIndex : GoStr → Char → Option Nat
  | [], _ => none
  | d :: ds, c => if d = c then some 0 else Option.map (fun n => n + 1) (strIndex ds c)

/-- ASCII lower-casing of one character (the source uses `strings.ToLower`;
per the spec's ASCII assumption only the ASCII range is modelled). -/
def toLowerChar (c : Char) : Char :=
  if 'A' ≤ c ∧ c ≤ 'Z' then Char.ofNat (c.toNat + 32) else c

/-- ASCII lower-casing of a string. -/
def toLowerStr (s : GoStr) : GoStr := s.map toLowerChar

/-- The value label computed by `PrintOpts`: the word `value`, unless the help
text has a first backtick at index `ix` followed by another backtick at index
`iy` with `iy - ix > 1`, in which case the lower-cased text between them. -/
def vlabel (help : GoStr) : GoStr :=
  match strIndex help btick with
  | none => strL "value"
  | some ix =>
    match strIndex (help.drop (ix + 1)) btick with
    | none => strL "value"
    | some iy0 =>
      let iy := iy0 + (ix + 1)
      if iy - ix > 1 then toLowerStr ((help.drop (ix + 1)).take (iy - ix - 1))
      else strL "value"

/-- The text `PrintOpts` emits for one descriptor: nothing for a descriptor
with empty help or with neither name; otherwise the option line (two-space
indent, `-short`, `, `, `--long`, value label as applicable) followed by the
help line indented four spaces. -/
def PrintOptsLine {σ ε : Type} (o : Opt σ ε) : GoStr :=
  if o.Help = [] ∨ (o.Short = nulChar ∧ o.Long = []) then []
  else
    let t1 := strL "  " ++ (if o.Short ≠ nulChar then ['-', o.Short] else [])
    let t2 := t1 ++ (if o.Long ≠ [] then
      (if o.Short ≠ nulChar then strL ", " else []) ++ ('-' :: '-' :: o.Long) else [])
    let t3 := t2 ++ (if o.Value then ' ' :: vlabel o.Help else [])
    t3 ++ ['\n'] ++ strL "    " ++ o.Help ++ ['\n']

/-- Source `PrintOpts`: the full usage text, in descriptor order. -/
def PrintOpts {σ ε : Type} (options : List (Opt σ ε)) : GoStr :=
  (options.map PrintOptsLine).flatten

/-- Content of the first backtick-delimited substring after an opening
backtick: the characters up to the next backtick, `none` if it is unclosed. -/
def closeDelim : GoStr → Option GoStr
  | [] => none
  | c :: cs => if c = btick then some [] else Option.map (fun r => c :: r) (closeDelim cs)

/-- The first backtick-delimited substring of a string, if any. -/
def firstDelimited : GoStr → Option GoStr
  | [] => none
  | c :: cs => if c = btick then closeDelim cs else firstDelimited cs

/-- Value label as the claim words it: the literal word `value` unless the
help text contains a backtick-delimited substring, in which case that
substring, lower-cased, is used instead. -/
def specValueLabel (help : GoStr) : GoStr :=
  match firstDelimited help with
  | none => strL "value"
  | some sub => toLowerStr sub

/-- Value label as amended: the first backtick-delimited substring is used
(lower-cased) only when it is nonempty; otherwise the label is `value`. -/
def specValueLabelA (help : GoStr) : GoStr :=
  match firstDelimited help with
  | none => strL "value"
  | some sub => if sub = [] then strL "value" else toLowerStr sub

/-- One usage line as the claim describes it: the short form, the long form,
and (for a value-taking option) a value label computed by `lab`, each omitted
when not applicable, then an indented line with the help text. -/
def specLine {σ ε : Type} (lab : GoStr → GoStr) (o : Opt σ ε) : GoStr :=
  strL "  "
    ++ (if o.Short ≠ nulChar then ['-', o.Short] else [])
    ++ (if o.Short ≠ nulChar ∧ o.Long ≠ [] then strL ", " else [])
    ++ (if o.Long ≠ [] then '-' :: '-' :: o.Long else [])
    ++ (if o.Value then ' ' :: lab o.Help else [])
    ++ ['\n'] ++ strL "    " ++ o.Help ++ ['\n']

/-- Usage text as the claim describes it: only descriptors with help text
that are not the default handler, in order, each rendered by `specLine`. -/
def specUsageWith {σ ε : Type} (lab : GoStr → GoStr) (options : List (Opt σ ε)) : GoStr :=
  ((options.filter
      (fun o => decide (o.Help ≠ [] ∧ ¬(o.Short = nulChar ∧ o.Long = [])))).map
    (specLine lab)).flatten

/-- Usage text with the claim's value-label rule, taken literally. -/
def specUsage {σ ε : Type} (options : List (Opt σ ε)) : GoStr :=
  specUsageWith specValueLabel options

/-- Usage text with the amended value-label rule (nonempty substring only). -/
def specUsageA {σ ε : Type} (options : List (Opt σ ε)) : GoStr :=
  specUsageWith specValueLabelA options

/-- A handler that always succeeds and leaves the state unchanged. -/
def okH {σ ε : Type} : σ → GoStr → Except ε σ := fun s _ => Except.ok s

/-- A handler that always fails with the fixed error `e`. -/
def failH {σ ε : Type} (e : ε) : σ → GoStr → Except ε σ := fun _ _ => Except.error e

/-- A trace-recording handler: appends the pair (its tag character, the value
it received) to the state, so the state after a scan is the exact sequence of
handler invocations in dispatch order. -/
def traceH (tag : Char) : List (Char × GoStr) → GoStr → Except Unit (List (Char × GoStr)) :=
  fun tr v => Except.ok (tr ++ [(tag, v)])

/-- The table of claim C1: no-value flags `n` and `r`, value-taking flag `k`,
with arbitrary handlers. -/
def c1opts {σ ε : Type} (hn hk hr : σ → GoStr → Except ε σ) : List (Opt σ ε) :=
  [⟨'n', [], [], false, false, hn⟩, ⟨'k', [], [], true, false, hk⟩,
   ⟨'r', [], [], false, false, hr⟩]

/-- A table exercising every dispatch form, every handler failing with `e`:
short flag `n`, value-taking short flag `k`, long option `lo`, and a default
(no-name) descriptor. -/
def optsWrap {σ ε : Type} (e : ε) : List (Opt σ ε) :=
  [⟨'n', [], [], false, false, failH e⟩, ⟨'k', [], [], true, false, failH e⟩,
   ⟨nulChar, ['l', 'o'], [], false, false, failH e⟩,
   ⟨nulChar, [], [], false, false, failH e⟩]

/-- A single non-repeatable no-value long option `x` that accepts anything. -/
def optsLongX : List (Opt Unit Unit) := [⟨nulChar, ['x'], [], false, false, okH⟩]

/-- A single descriptor with short form `x` and long form `onearg`, taking a
value; `rep` selects whether it is repeatable. -/
def optsOneArg {σ ε : Type} (rep : Bool) (hx : σ → GoStr → Except ε σ) : List (Opt σ ε) :=
  [⟨'x', ['o', 'n', 'e', 'a', 'r', 'g'], [], true, rep, hx⟩]

/-- A single non-repeatable no-value short flag `v`. -/
def optsV {σ ε : Type} (hv : σ → GoStr → Except ε σ) : List (Opt σ ε) :=
  [⟨'v', [], [], false, false, hv⟩]

/-- A single repeatable no-value short flag `v` whose handler counts its
invocations in the state. -/
def optsVR : List (Opt Nat Unit) :=
  [⟨'v', [], [], false, true, fun s _ => Except.ok (s + 1)⟩]

/-- The table of claim C8: no-value flags `n` and `r` only. -/
def opts8 {σ ε : Type} (hn hr : σ → GoStr → Except ε σ) : List (Opt σ ε) :=
  [⟨'n', [], [], false, false, hn⟩, ⟨'r', [], [], false, false, hr⟩]

/-- A table with a single (default-handler) descriptor, not repeatable. -/
def optsD {σ ε : Type} (hd : σ → GoStr → Except ε σ) : List (Opt σ ε) :=
  [⟨nulChar, [], [], false, false, hd⟩]

/-- A demonstration table: a repeatable default handler recording the
non-option arguments it receives. -/
def demoOpts : List (Opt (List (Char × GoStr)) Unit) :=
  [⟨nulChar, [], [], false, true, traceH '_'⟩]

end GoUtils

namespace GoUtils

theorem scanBundle_congr {σ ε α : Type} (options : List (Opt σ ε)) (short : List (Char × Nat))
    (k k' : List (Option Nat) → σ → Option Nat → GoStr → Except (ParseErr ε) α)
    (hk : ∀ h s nv rem, k h s nv rem = k' h s nv rem) :
    ∀ (chars : GoStr) (handled : List (Option Nat)) (s : σ) (needs : Option Nat) (i : Nat),
      scanBundle options short k handled s needs i chars =
        scanBundle options short k' handled s needs i chars := by
  intro chars
  induction chars with
  | nil => intro handled s needs i; simp only [scanBundle, hk]
  | cons c cs ih =>
    intro handled s needs i
    simp only [scanBundle]
    cases lookupShort short c with
    | none => simp only [hk]
    | some ix =>
      by_cases h1 : (getOpt options ix).Repeatable = false ∧ some ix ∈ handled
      · simp only [if_pos h1]
      · simp only [if_neg h1]
        cases (getOpt options ix).Value with
        | true =>
          cases needs with
          | some j => simp
          | none => simp only [ih]
        | false =>
          cases (getOpt options ix).Handler s [] with
          | error e => simp
          | ok s' => simp only [ih]

set_option smartUnfolding false in
theorem scan_nil {σ ε : Type} (options : List (Opt σ ε)) (t : Table)
    (handled : List (Option Nat)) (s : σ) :
    scan options t handled s [] = Except.ok ([], s) := rfl

set_option smartUnfolding false in
theorem scan_term {σ ε : Type} (options : List (Opt σ ε)) (t : Table)
    (handled : List (Option Nat)) (s : σ) (rest : List GoStr) :
    scan options t handled s (['-', '-'] :: rest) = Except.ok (rest, s) := rfl

set_option smartUnfolding false in
theorem scan_empty_step {σ ε : Type} (options : List (Opt σ ε)) (t : Table)
    (handled : List (Option Nat)) (s : σ) (rest : List GoStr) :
    scan options t handled s ([] :: rest) =
      defaultStep options t handled s [] rest := rfl

set_option maxHeartbeats 1000000 in
set_option smartUnfolding false in
theorem scan_nonopt_step {σ ε : Type} (options : List (Opt σ ε)) (t : Table)
    (handled : List (Option Nat)) (s : σ) (a : Char) (as : GoStr) (rest : List GoStr)
    (ha : ¬a = '-') :
    scan options t handled s ((a :: as) :: rest) =
      defaultStep options t handled s (a :: as) rest := by
  delta scan defaultStep
  dsimp only [List.brecOn]
  simp only [reduceIte, if_neg ha]

set_option maxHeartbeats 1000000 in
set_option smartUnfolding false in
theorem scan_long_step {σ ε : Type} (options : List (Opt σ ε)) (t : Table)
    (handled : List (Option Nat)) (s : σ) (c : Char) (cs : GoStr) (rest : List GoStr) :
    scan options t handled s (('-' :: '-' :: c :: cs) :: rest) =
      longStep options t handled s (c :: cs) rest := by
  delta scan longStep
  dsimp only [List.brecOn]
  simp only [reduceIte]
  cases lookupLong t.long (cutEq (c :: cs)).1 with
  | none => rfl
  | some ix =>
    by_cases h1 : (getOpt options ix).Repeatable = false ∧ some ix ∈ handled
    · simp only [if_pos h1]
    · simp only [if_neg h1]
      by_cases h2 : (getOpt options ix).Value = false ∧ (cutEq (c :: cs)).2.2 = true
      · simp only [if_pos h2]
      · simp only [if_neg h2]
        by_cases h3 : (getOpt options ix).Value = true ∧ (cutEq (c :: cs)).2.2 = false
        · simp only [if_pos h3]
          cases rest with
          | nil => rfl
          | cons v rest' =>
            cases (getOpt options ix).Handler s v with
            | error e => rfl
            | ok s' => rfl
        · simp only [if_neg h3]

set_option maxHeartbeats 1000000 in
set_option smartUnfolding false in
theorem scan_dash_step {σ ε : Type} (options : List (Opt σ ε)) (t : Table)
    (handled : List (Option Nat)) (s : σ) (rest : List GoStr) :
    scan options t handled s (['-'] :: rest) =
      shortStep options t handled s 0 ['-'] rest := by
  delta scan shortStep
  dsimp only [List.brecOn]
  simp only [reduceIte]
  refine scanBundle_congr options t.short _ _ (fun h2 s2 nv rem => ?_) ['-'] handled s none 0
  cases nv with
  | none => rfl
  | some ix =>
    cases rem with
    | cons rc rcs =>
      cases (getOpt options ix).Handler s2 (rc :: rcs) with
      | error e => rfl
      | ok s3 => rfl
    | nil =>
      cases rest with
      | nil => rfl
      | cons v rest' =>
        cases (getOpt options ix).Handler s2 v with
        | error e => rfl
        | ok s3 => rfl

set_option smartUnfolding false in
theorem scanVR_replicate : ∀ (n : Nat) (handled : List (Option Nat)) (s : Nat),
    scan optsVR (Table.mk [('v', 0)] [] none) handled s (List.replicate n ['-', 'v']) =
      Except.ok ([], s + n) := by
  intro n
  induction n with
  | zero => intro handled s; rfl
  | succ n ih =>
    intro handled s
    rw [List.replicate_succ, show s + (n + 1) = s + 1 + n from by omega]
    exact ih (some 0 :: handled) (s + 1)

set_option maxHeartbeats 1000000 in
set_option smartUnfolding false in
theorem scan_bundle_step {σ ε : Type} (options : List (Opt σ ε)) (t : Table)
    (handled : List (Option Nat)) (s : σ) (b : Char) (bs : GoStr) (rest : List GoStr)
    (hb : ¬b = '-') :
    scan options t handled s (('-' :: b :: bs) :: rest) =
      shortStep options t handled s 1 (b :: bs) rest := by
  delta scan shortStep
  dsimp only [List.brecOn]
  simp only [reduceIte, if_neg hb]
  refine scanBundle_congr options t.short _ _ (fun h2 s2 nv rem => ?_) (b :: bs) handled s none 1
  cases nv with
  | none => rfl
  | some ix =>
    cases rem with
    | cons rc rcs =>
      cases (getOpt options ix).Handler s2 (rc :: rcs) with
      | error e => rfl
      | ok s3 => rfl
    | nil =>
      cases rest with
      | nil => rfl
      | cons v rest' =>
        cases (getOpt options ix).Handler s2 v with
        | error e => rfl
        | ok s3 => rfl

set_option smartUnfolding false in
/-- C1: scanning a bundle consumes recognized short-option letters left to
right until a character fails lookup in the short index, from which point the
rest of the token is the attached value of the bundle's value-taking option.
For the table with no-value flags `n`, `r` and value-taking flag `k`:
`["-nk2r"]` dispatches `n` and then `k` with value `"2r"` (`r` is not
recognized as a flag), while `["-nkr", "2"]` and `["-nrk", "2"]` both
succeed, dispatching `n` and `r` with no value and `k` with value `"2"`. -/
theorem bundle_boundary {σ ε : Type} (hn hk hr : σ → GoStr → Except ε σ) (s : σ) :
    (GetOpts (c1opts hn hk hr) [['-', 'n', 'k', '2', 'r']] s =
      some (match hn s [] with
        | Except.error e => Except.error (ParseErr.fromHandler e)
        | Except.ok s1 =>
          match hk s1 ['2', 'r'] with
          | Except.error e => Except.error (ParseErr.fromHandler e)
          | Except.ok s2 => Except.ok ([], s2))) ∧
    (GetOpts (c1opts hn hk hr) [['-', 'n', 'k', 'r'], ['2']] s =
      some (match hn s [] with
        | Except.error e => Except.error (ParseErr.fromHandler e)
        | Except.ok s1 =>
          match hr s1 [] with
          | Except.error e => Except.error (ParseErr.fromHandler e)
          | Except.ok s2 =>
            match hk s2 ['2'] with
            | Except.error e => Except.error (ParseErr.fromHandler e)
            | Except.ok s3 => Except.ok ([], s3))) ∧
    (GetOpts (c1opts hn hk hr) [['-', 'n', 'r', 'k'], ['2']] s =
      some (match hn s [] with
        | Except.error e => Except.error (ParseErr.fromHandler e)
        | Except.ok s1 =>
          match hr s1 [] with
          | Except.error e => Except.error (ParseErr.fromHandler e)
          | Except.ok s2 =>
            match hk s2 ['2'] with
            | Except.error e => Except.error (ParseErr.fromHandler e)
            | Except.ok s3 => Except.ok ([], s3))) :=
  ⟨rfl, rfl, rfl⟩

set_option smartUnfolding false in
/-- C2 counterexample: for the short flag `n` whose handler fails with the
error `7`, the error returned from the scan is the handler's error passed
through unchanged (`fromHandler 7`), which carries no option display name —
so it is not true that every option form wraps handler failures with the
option's display name. -/
theorem short_error_unwrapped_cx :
    GetOpts (optsWrap (σ := Unit) (7 : Nat)) [['-', 'n']] () =
      some (Except.error (ParseErr.fromHandler 7)) ∧
    carriesName (ParseErr.fromHandler (ε := Nat) 7) = false :=
  ⟨rfl, rfl⟩

set_option smartUnfolding false in
/-- C2 amended: only a long-option handler failure is wrapped together with
the option's display name (`rejected`); a handler failure for a short option
(flag or value-taking) and for the default handler is returned to the caller
unchanged, preserving the cause but without a display name. -/
theorem handler_error_wrapping {σ ε : Type} (e : ε) (s : σ) :
    (GetOpts (optsWrap e) [['-', '-', 'l', 'o']] s =
      some (Except.error (ParseErr.rejected ['l', 'o'] e))) ∧
    (GetOpts (optsWrap e) [['-', 'n']] s =
      some (Except.error (ParseErr.fromHandler e))) ∧
    (GetOpts (optsWrap e) [['-', 'k'], ['v']] s =
      some (Except.error (ParseErr.fromHandler e))) ∧
    (GetOpts (optsWrap e) [['a']] s =
      some (Except.error (ParseErr.fromHandler e))) :=
  ⟨rfl, rfl, rfl, rfl⟩

set_option smartUnfolding false in
/-- C4: repeatability is tracked per descriptor across forms: the descriptor
with short form `x` and long form `onearg`, dispatched first as `-x 1`, fails
with RepeatedOptionError when it occurs again as `--onearg=2`, before its
handler is invoked again; with the same descriptor marked repeatable the
same arguments dispatch the handler twice; `["-v", "-v"]` with `v`
non-repeatable fails with the short-form repeat error after the first
dispatch; and a repeatable flag may be dispatched any number of times. -/
theorem repeatability_per_descriptor :
    (∀ (σ ε : Type) (hx : σ → GoStr → Except ε σ) (s : σ),
      GetOpts (optsOneArg false hx)
          [['-', 'x'], ['1'], ['-', '-', 'o', 'n', 'e', 'a', 'r', 'g', '=', '2']] s =
        some (match hx s ['1'] with
          | Except.error e => Except.error (ParseErr.fromHandler e)
          | Except.ok _ =>
            Except.error (ParseErr.repeatedLong ['o', 'n', 'e', 'a', 'r', 'g']))) ∧
    (∀ (σ ε : Type) (hx : σ → GoStr → Except ε σ) (s : σ),
      GetOpts (optsOneArg true hx)
          [['-', 'x'], ['1'], ['-', '-', 'o', 'n', 'e', 'a', 'r', 'g', '=', '2']] s =
        some (match hx s ['1'] with
          | Except.error e => Except.error (ParseErr.fromHandler e)
          | Except.ok s1 =>
            match hx s1 ['2'] with
            | Except.error e =>
              Except.error (ParseErr.rejected ['o', 'n', 'e', 'a', 'r', 'g'] e)
            | Except.ok s2 => Except.ok ([], s2))) ∧
    (∀ (σ ε : Type) (hv : σ → GoStr → Except ε σ) (s : σ),
      GetOpts (optsV hv) [['-', 'v'], ['-', 'v']] s =
        some (match hv s [] with
          | Except.error e => Except.error (ParseErr.fromHandler e)
          | Except.ok _ => Except.error (ParseErr.repeatedShort 'v'))) ∧
    (∀ (n : Nat) (s : Nat),
      GetOpts optsVR (List.replicate n ['-', 'v']) s = some (Except.ok ([], s + n))) :=
  ⟨fun _ _ _ _ => rfl, fun _ _ _ _ => rfl, fun _ _ _ _ => rfl,
   fun n s => congrArg some (scanVR_replicate n [] s)⟩

set_option smartUnfolding false in
/-- C8: in a bundle that begins with recognized no-value short flags and is
followed by a character not in the short index, scanning does not fail: the
recognized flags' handlers are invoked with no value, and the unrecognized
remainder of the token is silently discarded — no handler receives it, it is
not part of the leftover, and no error is reported.  Shown for the table with
flags `n`, `r`, for the bundles `-nr<c><cs>` and `-n<c><cs>` with `c` failing
the short-index lookup. -/
theorem bundle_tail_discarded {σ ε : Type} (hn hr : σ → GoStr → Except ε σ) (s : σ)
    (c : Char) (cs : GoStr) (hc : lookupShort [('n', 0), ('r', 1)] c = none) :
    (GetOpts (opts8 hn hr) [['-', 'n', 'r'] ++ c :: cs] s =
      some (match hn s [] with
        | Except.error e => Except.error (ParseErr.fromHandler e)
        | Except.ok s1 =>
          match hr s1 [] with
          | Except.error e => Except.error (ParseErr.fromHandler e)
          | Except.ok s2 => Except.ok ([], s2))) ∧
    (GetOpts (opts8 hn hr) [['-', 'n'] ++ c :: cs] s =
      some (match hn s [] with
        | Except.error e => Except.error (ParseErr.fromHandler e)
        | Except.ok s1 => Except.ok ([], s1))) := by
  have h0 : ∀ args, GetOpts (opts8 hn hr) args s =
      some (scan (opts8 hn hr) (Table.mk [('n', 0), ('r', 1)] [] none) [] s args) :=
    fun args => rfl
  have l1 : lookupShort [('n', 0), ('r', 1)] 'n' = some 0 := rfl
  have l2 : lookupShort [('n', 0), ('r', 1)] 'r' = some 1 := rfl
  constructor
  · rw [h0, List.cons_append, List.cons_append, List.cons_append, List.nil_append,
      scan_bundle_step _ _ _ _ _ _ _ (by decide)]
    cases h1 : hn s [] with
    | error e => simp [shortStep, scanBundle, l1, getOpt, opts8, h1]
    | ok s1 =>
      cases h2 : hr s1 [] with
      | error e => simp [shortStep, scanBundle, l1, l2, getOpt, opts8, h1, h2, hc]
      | ok s2 =>
        simp [shortStep, scanBundle, l1, l2, getOpt, opts8, h1, h2, hc, scan_nil]
  · rw [h0, List.cons_append, List.cons_append, List.nil_append,
      scan_bundle_step _ _ _ _ _ _ _ (by decide)]
    cases h1 : hn s [] with
    | error e => simp [shortStep, scanBundle, l1, getOpt, opts8, h1]
    | ok s1 => simp [shortStep, scanBundle, l1, getOpt, opts8, h1, hc, scan_nil]

set_option smartUnfolding false in
/-- C10: an empty-string token is not treated as an option or as malformed
input: it is dispatched to the default handler as a non-option argument with
the empty value, subject to the default handler's repeatability rule, exactly
like any other non-option token; in particular scanning `["", ""]` against a
table whose (non-repeatable) default handler succeeds dispatches the handler
once with the empty value and then fails with the repeated-default error. -/
theorem empty_token_dispatch :
    (∀ (σ ε : Type) (options : List (Opt σ ε)) (t : Table) (di : Nat)
        (handled : List (Option Nat)) (s : σ) (rest : List GoStr),
      t.dflt = some di →
      scan options t handled s ([] :: rest) =
        if (getOpt options di).Repeatable = false ∧ some di ∈ handled then
          Except.error ParseErr.repeatedDefault
        else
          match (getOpt options di).Handler s [] with
          | Except.error e => Except.error (ParseErr.fromHandler e)
          | Except.ok s' => scan options t (some di :: handled) s' rest) ∧
    (∀ (σ ε : Type) (hd : σ → GoStr → Except ε σ) (s : σ),
      GetOpts (optsD hd) [[], []] s =
        some (match hd s [] with
          | Except.error e => Except.error (ParseErr.fromHandler e)
          | Except.ok _ => Except.error ParseErr.repeatedDefault)) := by
  constructor
  · intro σ ε options t di handled s rest hd
    rw [scan_empty_step]
    simp only [defaultStep, hd]
  · intro σ ε hd s
    rfl

/-- Witness for C10 at a concrete input: a table whose default handler records
its argument; the empty token is dispatched to it with the empty value. -/
theorem empty_token_dispatch_witness :
    scan (optsD (traceH '_')) (Table.mk [] [] (some 0)) [] [] [[]] =
      Except.ok ([], [('_', [])]) := by
  have h := empty_token_dispatch.1 (List (Char × GoStr)) Unit (optsD (traceH '_'))
    (Table.mk [] [] (some 0)) 0 [] [] [] rfl
  simpa [getOpt, optsD, traceH, scan_nil] using h

/-- Witness for C8 at a concrete input: with trace-recording handlers, the
bundle `-nrxy` (with `x` not in the short index) dispatches `n` and `r` with
no value and discards `xy`, and the scan succeeds with empty leftover. -/
theorem bundle_tail_discarded_witness :
    GetOpts (opts8 (traceH 'n') (traceH 'r')) [['-', 'n', 'r', 'x', 'y']] [] =
      some (Except.ok ([], [('n', []), ('r', [])])) := by
  have h := (bundle_tail_discarded (traceH 'n') (traceH 'r') [] 'x' ['y'] (by decide)).1
  simpa [traceH] using h

theorem cutEq_no_eq : ∀ (name : GoStr), '=' ∉ name → cutEq name = (name, [], false) := by
  intro name
  induction name with
  | nil => intro _; rfl
  | cons c cs ih =>
    intro h
    have hc : ¬c = '=' := fun hcc => h (by simp [hcc])
    simp only [cutEq, if_neg hc, ih (fun hm => h (List.mem_cons_of_mem c hm))]

theorem cutEq_append (v : GoStr) : ∀ (name : GoStr), '=' ∉ name →
    cutEq (name ++ '=' :: v) = (name, v, true) := by
  intro name
  induction name with
  | nil => intro _; simp [cutEq]
  | cons c cs ih =>
    intro h
    have hc : ¬c = '=' := fun hcc => h (by simp [hcc])
    simp only [List.cons_append, cutEq, if_neg hc, List.append_eq,
      ih (fun hm => h (List.mem_cons_of_mem c hm))]

set_option smartUnfolding false in
/-- C3 counterexample: for a non-repeatable no-value long option `x` that was
already dispatched, the token `--x=v` fails with the repeated-option error,
not with the does-not-take-a-value error: the code checks repeatability
before the unexpected-value check. -/
theorem unexpected_value_repeat_cx :
    (GetOpts optsLongX [['-', '-', 'x'], ['-', '-', 'x', '=', 'v']] () =
      some (Except.error (ParseErr.repeatedLong ['x']))) ∧
    ParseErr.repeatedLong (ε := Unit) ['x'] ≠ ParseErr.unexpectedValue ['x'] :=
  ⟨rfl, by decide⟩

/-- C3 amended: for a long token `--name=value` whose `name` resolves to an
option that takes no value, scanning fails with the does-not-take-a-value
error, except that when the option is non-repeatable and was already
dispatched earlier in the scan the repeatability check fires first and
scanning fails with the repeated-option error instead. -/
theorem unexpected_value_order {σ ε : Type} (options : List (Opt σ ε)) (t : Table)
    (handled : List (Option Nat)) (s : σ) (ix : Nat) (name v : GoStr)
    (rest : List GoStr) (hname : name ≠ []) (hne : '=' ∉ name)
    (hl : lookupLong t.long name = some ix)
    (hv : (getOpt options ix).Value = false) :
    scan options t handled s (('-' :: '-' :: (name ++ '=' :: v)) :: rest) =
      if (getOpt options ix).Repeatable = false ∧ some ix ∈ handled then
        Except.error (ParseErr.repeatedLong name)
      else Except.error (ParseErr.unexpectedValue name) := by
  cases name with
  | nil => exact absurd rfl hname
  | cons n0 name' =>
    rw [List.cons_append, scan_long_step]
    simp only [longStep]
    rw [← List.cons_append, cutEq_append v (n0 :: name') hne]
    simp only [hl, hv]
    by_cases h1 : (getOpt options ix).Repeatable = false ∧ some ix ∈ handled
    · simp only [if_pos h1]
    · simp only [if_neg h1]
      simp

/-- Witness for C3's amended theorem at a concrete input: the long option `x`
already in the handled set, given `--x=v`, yields the repeated-option error. -/
theorem unexpected_value_order_witness :
    scan optsLongX (Table.mk [] [(['x'], 0)] none) [some 0] ()
        [['-', '-', 'x', '=', 'v']] =
      Except.error (ParseErr.repeatedLong ['x']) := by
  have h := unexpected_value_order optsLongX (Table.mk [] [(['x'], 0)] none)
    [some 0] () 0 ['x'] ['v'] [] (by decide) (by decide) rfl rfl
  simpa [getOpt, optsLongX] using h

/-- C6: long-option value equivalence.  For every valid table, every long
name resolving to a value-taking option, every handler state and every
remaining argument list, the token `--name=value` and the token pair
`--name value` produce identical handler invocations and the same scan
result. -/
theorem long_value_equiv {σ ε : Type} (options : List (Opt σ ε)) (t : Table)
    (ht : parseOptionTable options = some t) (name v : GoStr) (ix : Nat)
    (hname : name ≠ []) (hne : '=' ∉ name)
    (hl : lookupLong t.long name = some ix)
    (hv : (getOpt options ix).Value = true) (s : σ) (rest : List GoStr) :
    GetOpts options (('-' :: '-' :: (name ++ '=' :: v)) :: rest) s =
      GetOpts options (('-' :: '-' :: name) :: v :: rest) s := by
  cases name with
  | nil => exact absurd rfl hname
  | cons n0 name' =>
    simp only [GetOpts, ht]
    rw [List.cons_append, scan_long_step, scan_long_step]
    simp only [longStep]
    rw [← List.cons_append, cutEq_append v (n0 :: name') hne,
      cutEq_no_eq (n0 :: name') hne]
    simp [hl, hv]

/-- Witness for C6 at a concrete input: `--opt=5` and `--opt 5` scan
identically for a value-taking long option `opt`. -/
theorem long_value_equiv_witness :
    GetOpts [(⟨nulChar, ['o', 'p', 't'], [], true, false, okH⟩ : Opt Unit Unit)]
        [['-', '-', 'o', 'p', 't', '=', '5']] () =
      GetOpts [(⟨nulChar, ['o', 'p', 't'], [], true, false, okH⟩ : Opt Unit Unit)]
        [['-', '-', 'o', 'p', 't'], ['5']] () := by
  have h := long_value_equiv
    [(⟨nulChar, ['o', 'p', 't'], [], true, false, okH⟩ : Opt Unit Unit)]
    (Table.mk [] [(['o', 'p', 't'], 0)] none) rfl ['o', 'p', 't'] ['5'] 0
    (by decide) (by decide) rfl rfl () []
  simpa using h

theorem buildTable_dflt {σ ε : Type} :
    ∀ (opts : List (Opt σ ε)) (ix : Nat) (short : List (Char × Nat))
      (long : List (GoStr × Nat)) (d : Option Nat) (t : Table),
      (∀ o ∈ opts, ¬(o.Short = nulChar ∧ o.Long = [])) →
      buildTable opts ix short long d = some t → t.dflt = d := by
  intro opts
  induction opts with
  | nil =>
    intro ix short long d t _ h
    simp only [buildTable] at h
    cases h
    rfl
  | cons o rest ih =>
    intro ix short long d t hno h
    simp only [buildTable] at h
    have had : addDefault o ix d = some d := by
      simp only [addDefault, if_neg (hno o (List.mem_cons_self o rest))]
    rw [had] at h
    cases haddS : addShort o ix short with
    | none => rw [haddS] at h; cases h
    | some short' =>
      rw [haddS] at h
      cases haddL : addLong o ix long with
      | none => rw [haddL] at h; cases h
      | some long' =>
        rw [haddL] at h
        exact ih (ix + 1) short' long' d t
          (fun o2 hm => hno o2 (List.mem_cons_of_mem o hm)) h

/-- C7: when the caller's descriptor list contains no default-handler
descriptor, table construction leaves the synthesized always-failing default
in effect, and scanning any argument list whose first token is a non-option
token fails with the additional-arguments-not-allowed error instead of
silently accepting the token. -/
theorem no_default_rejects {σ ε : Type} (options : List (Opt σ ε)) (t : Table)
    (ht : parseOptionTable options = some t)
    (hnd : ∀ o ∈ options, ¬(o.Short = nulChar ∧ o.Long = [])) :
    t.dflt = none ∧
    ∀ (arg : GoStr) (rest : List GoStr) (s : σ), arg.head? ≠ some '-' →
      GetOpts options (arg :: rest) s =
        some (Except.error ParseErr.additionalArgsNotAllowed) := by
  have hdn : t.dflt = none := buildTable_dflt options 0 [] [] none t hnd ht
  refine ⟨hdn, fun arg rest s ha => ?_⟩
  simp only [GetOpts, ht]
  cases arg with
  | nil =>
    rw [scan_empty_step]
    simp [defaultStep, hdn]
  | cons a as =>
    have ha' : ¬a = '-' := fun h => ha (by rw [h]; rfl)
    rw [scan_nonopt_step _ _ _ _ _ _ _ ha']
    simp [defaultStep, hdn]

theorem scanBundle_ok_k {σ ε α : Type} (options : List (Opt σ ε)) (short : List (Char × Nat))
    (k : List (Option Nat) → σ → Option Nat → GoStr → Except (ParseErr ε) α) :
    ∀ (chars : GoStr) (handled : List (Option Nat)) (s : σ) (needs : Option Nat)
      (i : Nat) (r : α),
      scanBundle options short k handled s needs i chars = Except.ok r →
      ∃ h2 s2 nv rem, k h2 s2 nv rem = Except.ok r := by
  intro chars
  induction chars with
  | nil => intro handled s needs i r h; exact ⟨handled, s, needs, [], h⟩
  | cons c cs ih =>
    intro handled s needs i r h
    simp only [scanBundle] at h
    cases hq : lookupShort short c with
    | none =>
      simp only [hq] at h
      by_cases hi : i < 2
      · exact Except.noConfusion (by simpa only [if_pos hi] using h)
      · simp only [if_neg hi] at h; exact ⟨handled, s, needs, c :: cs, h⟩
    | some ix =>
      simp only [hq] at h
      by_cases h1 : (getOpt options ix).Repeatable = false ∧ some ix ∈ handled
      · exact Except.noConfusion (by simpa only [if_pos h1] using h)
      · simp only [if_neg h1] at h
        cases hv : (getOpt options ix).Value with
        | true =>
          simp only [hv, reduceIte] at h
          cases needs with
          | some j => exact Except.noConfusion h
          | none => exact ih _ _ _ _ _ h
        | false =>
          simp only [hv, reduceIte] at h
          cases hh : (getOpt options ix).Handler s [] with
          | error e => exact Except.noConfusion (by simpa only [hh] using h)
          | ok s2 => simp only [hh] at h; exact ih _ _ _ _ _ h

theorem defaultStep_ok {σ ε : Type} (options : List (Opt σ ε)) (t : Table)
    (handled : List (Option Nat)) (s : σ) (arg : GoStr) (rest : List GoStr)
    (l : List GoStr) (s' : σ)
    (h : defaultStep options t handled s arg rest = Except.ok (l, s')) :
    ∃ h2 s2, scan options t h2 s2 rest = Except.ok (l, s') := by
  simp only [defaultStep] at h
  cases hd : t.dflt with
  | some di =>
    simp only [hd] at h
    by_cases h1 : (getOpt options di).Repeatable = false ∧ some di ∈ handled
    · exact Except.noConfusion (by simpa only [if_pos h1] using h)
    · simp only [if_neg h1] at h
      cases hh : (getOpt options di).Handler s arg with
      | error e => exact Except.noConfusion (by simpa only [hh] using h)
      | ok s2 => simp only [hh] at h; exact ⟨_, _, h⟩
  | none =>
    simp only [hd] at h
    by_cases h1 : (none : Option Nat) ∈ handled
    · exact Except.noConfusion (by simpa only [if_pos h1] using h)
    · exact Except.noConfusion (by simpa only [if_neg h1] using h)

theorem longStep_ok {σ ε : Type} (options : List (Opt σ ε)) (t : Table)
    (handled : List (Option Nat)) (s : σ) (body : GoStr) (rest : List GoStr)
    (l : List GoStr) (s' : σ)
    (h : longStep options t handled s body rest = Except.ok (l, s')) :
    (∃ h2 s2, scan options t h2 s2 rest = Except.ok (l, s')) ∨
    (∃ h2 s2 v rest', rest = v :: rest' ∧
      scan options t h2 s2 rest' = Except.ok (l, s')) := by
  simp only [longStep] at h
  cases hq : lookupLong t.long (cutEq body).1 with
  | none => exact Except.noConfusion (by simpa only [hq] using h)
  | some ix =>
    simp only [hq] at h
    by_cases h1 : (getOpt options ix).Repeatable = false ∧ some ix ∈ handled
    · exact Except.noConfusion (by simpa only [if_pos h1] using h)
    · simp only [if_neg h1] at h
      by_cases h2 : (getOpt options ix).Value = false ∧ (cutEq body).2.2 = true
      · exact Except.noConfusion (by simpa only [if_pos h2] using h)
      · simp only [if_neg h2] at h
        by_cases h3 : (getOpt options ix).Value = true ∧ (cutEq body).2.2 = false
        · simp only [if_pos h3] at h
          cases rest with
          | nil => exact Except.noConfusion h
          | cons v rest' =>
            cases hh : (getOpt options ix).Handler s v with
            | error e => exact Except.noConfusion (by simpa only [hh] using h)
            | ok s2 => simp only [hh] at h; exact Or.inr ⟨_, _, v, rest', rfl, h⟩
        · simp only [if_neg h3] at h
          cases hh : (getOpt options ix).Handler s (cutEq body).2.1 with
          | error e => exact Except.noConfusion (by simpa only [hh] using h)
          | ok s2 => simp only [hh] at h; exact Or.inl ⟨_, _, h⟩

theorem shortStep_ok {σ ε : Type} (options : List (Opt σ ε)) (t : Table)
    (handled : List (Option Nat)) (s : σ) (i : Nat) (chars : GoStr)
    (rest : List GoStr) (l : List GoStr) (s' : σ)
    (h : shortStep options t handled s i chars rest = Except.ok (l, s')) :
    (∃ h2 s2, scan options t h2 s2 rest = Except.ok (l, s')) ∨
    (∃ h2 s2 v rest', rest = v :: rest' ∧
      scan options t h2 s2 rest' = Except.ok (l, s')) := by
  simp only [shortStep] at h
  obtain ⟨h2, s2, nv, rem, hk⟩ := scanBundle_ok_k _ _ _ _ _ _ _ _ _ h
  cases nv with
  | none => exact Or.inl ⟨_, _, hk⟩
  | some ix =>
    cases rem with
    | cons rc rcs =>
      cases hh : (getOpt options ix).Handler s2 (rc :: rcs) with
      | error e => exact Except.noConfusion (by simpa only [hh] using hk)
      | ok s3 => simp only [hh] at hk; exact Or.inl ⟨_, _, hk⟩
    | nil =>
      cases rest with
      | nil => exact Except.noConfusion hk
      | cons v rest' =>
        cases hh : (getOpt options ix).Handler s2 v with
        | error e => exact Except.noConfusion (by simpa only [hh] using hk)
        | ok s3 => simp only [hh] at hk; exact Or.inr ⟨_, _, v, rest', rfl, hk⟩

theorem scan_no_term {σ ε : Type} (options : List (Opt σ ε)) (t : Table) :
    ∀ (n : Nat) (args : List GoStr), args.length ≤ n →
      ∀ (handled : List (Option Nat)) (s : σ) (l : List GoStr) (s' : σ),
        (['-', '-'] : GoStr) ∉ args →
        scan options t handled s args = Except.ok (l, s') → l = [] := by
  intro n
  induction n with
  | zero =>
    intro args hlen handled s l s' _ h
    have hnil : args = [] := List.eq_nil_of_length_eq_zero (Nat.le_zero.mp hlen)
    subst hnil
    rw [scan_nil] at h
    cases h
    rfl
  | succ n ih =>
    intro args hlen handled s l s' hm h
    cases args with
    | nil => rw [scan_nil] at h; cases h; rfl
    | cons arg rest =>
      have hlr : rest.length ≤ n := by
        simp only [List.length_cons] at hlen; omega
      have hm1 : (['-', '-'] : GoStr) ∉ rest :=
        fun hx => hm (List.mem_cons_of_mem arg hx)
      cases arg with
      | nil =>
        rw [scan_empty_step] at h
        obtain ⟨h2, s2, hc⟩ := defaultStep_ok options t handled s [] rest l s' h
        exact ih rest hlr h2 s2 l s' hm1 hc
      | cons a as =>
        by_cases ha : a = '-'
        · subst ha
          cases as with
          | nil =>
            rw [scan_dash_step] at h
            rcases shortStep_ok options t handled s 0 ['-'] rest l s' h with
              ⟨h2, s2, hc⟩ | ⟨h2, s2, v, rest', hr, hc⟩
            · exact ih rest hlr h2 s2 l s' hm1 hc
            · subst hr
              refine ih rest' ?_ h2 s2 l s' (fun hx => hm1 (List.mem_cons_of_mem v hx)) hc
              simp only [List.length_cons] at hlr; omega
          | cons b bs =>
            by_cases hb : b = '-'
            · subst hb
              cases bs with
              | nil => exact absurd (List.mem_cons_self _ _) hm
              | cons c cs =>
                rw [scan_long_step] at h
                rcases longStep_ok options t handled s (c :: cs) rest l s' h with
                  ⟨h2, s2, hc⟩ | ⟨h2, s2, v, rest', hr, hc⟩
                · exact ih rest hlr h2 s2 l s' hm1 hc
                · subst hr
                  refine ih rest' ?_ h2 s2 l s'
                    (fun hx => hm1 (List.mem_cons_of_mem v hx)) hc
                  simp only [List.length_cons] at hlr; omega
            · rw [scan_bundle_step _ _ _ _ _ _ _ hb] at h
              rcases shortStep_ok options t handled s 1 (b :: bs) rest l s' h with
                ⟨h2, s2, hc⟩ | ⟨h2, s2, v, rest', hr, hc⟩
              · exact ih rest hlr h2 s2 l s' hm1 hc
              · subst hr
                refine ih rest' ?_ h2 s2 l s'
                  (fun hx => hm1 (List.mem_cons_of_mem v hx)) hc
                simp only [List.length_cons] at hlr; omega
        · rw [scan_nonopt_step _ _ _ _ _ _ _ ha] at h
          obtain ⟨h2, s2, hc⟩ := defaultStep_ok options t handled s (a :: as) rest l s' h
          exact ih rest hlr h2 s2 l s' hm1 hc

/-- C5: the terminator.  For every valid table: when the scanner reaches a
token equal to exactly `--`, it succeeds and returns exactly the tokens after
that token as leftover, in original order, invoking no handler for them (the
state is returned unchanged); scanning `["--"]` alone yields empty leftover
with no handler invocations; and a successful scan of an argument list that
contains no `--` yields an empty leftover. -/
theorem terminator_leftover {σ ε : Type} (options : List (Opt σ ε)) (t : Table)
    (ht : parseOptionTable options = some t) :
    (∀ (handled : List (Option Nat)) (s : σ) (rest : List GoStr),
      scan options t handled s (['-', '-'] :: rest) = Except.ok (rest, s)) ∧
    (∀ s : σ, GetOpts options [['-', '-']] s = some (Except.ok ([], s))) ∧
    (∀ (args : List GoStr) (s : σ) (l : List GoStr) (s' : σ),
      (['-', '-'] : GoStr) ∉ args →
      GetOpts options args s = some (Except.ok (l, s')) → l = []) := by
  refine ⟨fun handled s rest => scan_term options t handled s rest, fun s => ?_, ?_⟩
  · simp only [GetOpts, ht]
    rw [scan_term]
  · intro args s l s' hm h
    simp only [GetOpts, ht, Option.some.injEq] at h
    exact scan_no_term options t args.length args le_rfl [] s l s' hm h

/-- Witness for C5 at a concrete input: with a trace-recording default
handler, `["a", "--", "b", "c"]` dispatches the default handler once for `a`,
stops at `--`, and returns `["b", "c"]` as leftover. -/
theorem terminator_leftover_witness :
    GetOpts demoOpts [['a'], ['-', '-'], ['b'], ['c']] [] =
      some (Except.ok ([['b'], ['c']], [('_', ['a'])])) := by
  have h0 : GetOpts demoOpts [['a'], ['-', '-'], ['b'], ['c']] [] =
      some (scan demoOpts (Table.mk [] [] (some 0)) [] []
        [['a'], ['-', '-'], ['b'], ['c']]) := rfl
  have h1 := (terminator_leftover demoOpts (Table.mk [] [] (some 0)) rfl).1
    [some 0] [('_', ['a'])] [['b'], ['c']]
  rw [h0, scan_nonopt_step _ _ _ _ _ _ _ (by decide)]
  simp only [defaultStep, getOpt, demoOpts, traceH]
  simpa using h1

/-- Witness for C7 at a concrete input: a table with only the flag `v` and no
default descriptor rejects the non-option token `a`. -/
theorem no_default_rejects_witness :
    GetOpts (optsV (okH : Unit → GoStr → Except Unit Unit)) [['a']] () =
      some (Except.error ParseErr.additionalArgsNotAllowed) := by
  have h := no_default_rejects (optsV (okH : Unit → GoStr → Except Unit Unit))
    (Table.mk [('v', 0)] [] none) rfl
    (fun o hm => by simp [optsV] at hm; subst hm; decide)
  exact h.2 ['a'] [] () (by decide)

end GoUtils

namespace GoUtils

theorem closeDelim_eq : ∀ (cs : GoStr),
    closeDelim cs = Option.map (fun iy0 => cs.take iy0) (strIndex cs btick) := by
  intro cs
  induction cs with
  | nil => rfl
  | cons c cs ih =>
    by_cases hc : c = btick
    · simp [closeDelim, strIndex, hc]
    · simp only [closeDelim, strIndex, if_neg hc, ih]
      cases strIndex cs btick with
      | none => rfl
      | some k => simp [List.take_succ_cons]

theorem firstDelimited_eq : ∀ (help : GoStr), firstDelimited help =
    (match strIndex help btick with
     | none => none
     | some ix => closeDelim (help.drop (ix + 1))) := by
  intro help
  induction help with
  | nil => rfl
  | cons c cs ih =>
    by_cases hc : c = btick
    · simp [firstDelimited, strIndex, hc]
    · simp only [firstDelimited, strIndex, if_neg hc, ih]
      cases strIndex cs btick with
      | none => rfl
      | some ix => simp [List.drop_succ_cons]

theorem vlabel_eq (help : GoStr) : vlabel help = specValueLabelA help := by
  unfold vlabel specValueLabelA
  rw [firstDelimited_eq]
  cases h1 : strIndex help btick with
  | none => rfl
  | some ix =>
    dsimp only
    rw [closeDelim_eq]
    cases h2 : strIndex (help.drop (ix + 1)) btick with
    | none => rfl
    | some iy0 =>
      simp only [Option.map_some']
      have e1 : iy0 + (ix + 1) - ix = iy0 + 1 := by omega
      rw [e1, Nat.add_sub_cancel]
      cases iy0 with
      | zero =>
        rw [if_neg (by omega), if_pos (List.take_zero _)]
      | succ k =>
        have hne : (help.drop (ix + 1)).take (k + 1) ≠ [] := by
          cases hdp : help.drop (ix + 1) with
          | nil => rw [hdp] at h2; exact Option.noConfusion h2
          | cons d ds => simp [hdp]
        rw [if_pos (by omega), if_neg hne]

theorem PrintOptsLine_eq {σ ε : Type} (o : Opt σ ε) :
    PrintOptsLine o =
      (if o.Help ≠ [] ∧ ¬(o.Short = nulChar ∧ o.Long = []) then
        specLine specValueLabelA o
      else []) := by
  unfold PrintOptsLine specLine
  by_cases hh : o.Help = []
  · simp [hh]
  · by_cases h1 : o.Short = nulChar
    · by_cases h2 : o.Long = []
      · simp [hh, h1, h2]
      · simp [hh, h1, h2, vlabel_eq, List.append_assoc]
    · by_cases h2 : o.Long = []
      · simp [hh, h1, h2, vlabel_eq, List.append_assoc]
      · simp [hh, h1, h2, vlabel_eq, List.append_assoc]

/-- C9 counterexample: for a descriptor whose help text contains an *empty*
backtick-delimited substring, `PrintOpts` keeps the literal word `value` as
the value label, while the claim's rendering (the delimited substring,
lower-cased, used whenever one is present) would produce an empty label. -/
theorem usage_label_cx :
    PrintOpts [(⟨'x', [], ['a', btick, btick], true, false, okH⟩ : Opt Unit Unit)] ≠
      specUsage [(⟨'x', [], ['a', btick, btick], true, false, okH⟩ : Opt Unit Unit)] := by
  decide

/-- C9 amended: `PrintOpts` emits output only for descriptors with non-empty
help text that are not the default handler, in descriptor order; each such
descriptor yields one line with the short form, the long form and — for a
value-taking option — a value label, omitting parts that do not apply,
followed by an indented line with the help text; the value label is the
literal word `value` unless the help text contains a backtick-delimited
substring and the first such substring is nonempty, in which case that first
substring, lower-cased, is used instead. -/
theorem usage_format {σ ε : Type} (options : List (Opt σ ε)) :
    PrintOpts options = specUsageA options := by
  unfold PrintOpts specUsageA specUsageWith
  induction options with
  | nil => rfl
  | cons o os ih =>
    simp only [List.map_cons, List.flatten_cons, List.filter_cons]
    by_cases hkeep : o.Help ≠ [] ∧ ¬(o.Short = nulChar ∧ o.Long = [])
    · rw [PrintOptsLine_eq, if_pos hkeep, decide_eq_true hkeep]
      simp [ih]
    · rw [PrintOptsLine_eq, if_neg hkeep, decide_eq_false hkeep]
      simp [ih]

end GoUtils
